import Mathlib

/-!
Shallow embedding of the `trans-vector2d` library: an immutable 2d vector
(`Vector`) and an immutable 2x3 affine transformation matrix (`Matrix`,
laid out `[a c e; b d f; 0 0 1]`).  JavaScript numbers are modelled as real
numbers; `Math.atan2`, `Math.cos`, `Math.sin`, `Math.sqrt`, `Math.abs` and
`Math.max` become their real counterparts.  A method that can throw is
embedded as a `Guarded` result carrying the throw condition next to the
value computed when no throw happens.  The duck-typed `VectorLike` /
`MatrixLike` shapes carry exactly the fields of the owning classes, so they
are embedded as the same structures.
-/

namespace TransVector2d

open Real

/-- Result of a method that may throw: `throws` holds exactly when the
source throws before returning, and `value` is what it returns otherwise. -/
structure Guarded (α : Type) where
  throws : Prop
  value : α

/-- JavaScript `Math.atan2 (y, x)` on real inputs (the floating point
special values `-0`, `NaN` and the infinities have no real counterpart):
the angle of the point `(x, y)`, in `(-π, π]`, with `atan2 0 0 = 0`. -/
noncomputable def atan2 (y x : ℝ) : ℝ :=
  if 0 < x then arctan (y / x)
  else if x < 0 then
    (if 0 ≤ y then arctan (y / x) + π else arctan (y / x) - π)
  else if 0 < y then π / 2
  else if y < 0 then -(π / 2)
  else 0

/-- Immutable 2d vector (`class Vector`, fields `x`, `y`).  `VectorLike`
carries exactly the same two numeric fields, so both are this structure. -/
@[ext]
structure Vector where
  x : ℝ
  y : ℝ

/-- Any object exposing numeric `x`, `y`. -/
abbrev VectorLike := Vector

/-- A vector-like whose fields may be absent: a JavaScript object where
`x` or `y` can be `undefined` (`none`). -/
structure VectorLikeJS where
  x : Option ℝ
  y : Option ℝ

namespace Vector

/-- `Vector.zero`. -/
def zero : Vector := ⟨0, 0⟩

/-- `Vector.one`. -/
def one : Vector := ⟨1, 1⟩

/-- `sub(v)`: componentwise difference. -/
def sub (self : Vector) (v : VectorLike) : Vector :=
  ⟨self.x - v.x, self.y - v.y⟩

/-- `norm()`: `Math.sqrt(x * x + y * y)`. -/
noncomputable def norm (self : Vector) : ℝ :=
  Real.sqrt (self.x * self.x + self.y * self.y)

/-- Modelled from the spec: the `distance` method is missing from the
`Vector` class under `src` (only the test files call it); the spec defines
it as `(this.sub(v)).norm()`. -/
noncomputable def distance (self : Vector) (v : VectorLike) : ℝ :=
  (self.sub v).norm

/-- static `from(v)`: `new Vector(v.x, v.y)` (`from` is a Lean keyword, so
the definition is named `from'`). -/
def from' (v : VectorLike) : Vector := ⟨v.x, v.y⟩

/-- static `from(v)` as the source runs it on a JavaScript object that may
miss `x` or `y`: `new Vector(v.x, v.y)` copies the fields as they are, so
an absent field stays absent (`undefined`); there is no defaulting in the
source. -/
def fromJS (v : VectorLikeJS) : VectorLikeJS := ⟨v.x, v.y⟩

/-- `isClosedTo(v, delta = 10 ** -10)`: throws (`Error("delta is
negative")`) iff `delta < 0`; otherwise both componentwise absolute
differences are at most `delta`. -/
def isClosedTo (self : Vector) (v : VectorLike)
    (delta : ℝ := (10 : ℝ) ^ (-10 : ℤ)) : Guarded Prop :=
  ⟨delta < 0, |self.x - v.x| ≤ delta ∧ |self.y - v.y| ≤ delta⟩

end Vector

/-- Immutable transformation matrix (`class Matrix`, fields `a`...`f`),
representing `[a c e; b d f; 0 0 1]`.  `MatrixLike` carries exactly the
same six numeric fields, so both are this structure. -/
@[ext]
structure Matrix where
  a : ℝ
  b : ℝ
  c : ℝ
  d : ℝ
  e : ℝ
  f : ℝ

/-- Any object exposing numeric `a`, `b`, `c`, `d`, `e`, `f`. -/
abbrev MatrixLike := Matrix

/-- `MatrixComponent`: `{translation, rotation, scale}`. -/
structure MatrixComponent where
  translation : VectorLike
  rotation : ℝ
  scale : VectorLike

/-- `Partial<MatrixComponent>`: each component may be absent. -/
structure PartialMatrixComponent where
  translation : Option VectorLike
  rotation : Option ℝ
  scale : Option VectorLike

/-- The argument union `Partial<MatrixComponent> | MatrixLike` taken by
`Matrix.from`; the source's `"a" in component` test picks the branch. -/
inductive MatrixFromArg where
  | elements (m : MatrixLike)
  | component (comp : PartialMatrixComponent)

/-- Passing a full `MatrixComponent` (for example `m.decompose()`) where
`Partial<MatrixComponent> | MatrixLike` is expected: it has no `a` field
and every component present. -/
def MatrixComponent.asArg (comp : MatrixComponent) : MatrixFromArg :=
  .component ⟨some comp.translation, some comp.rotation, some comp.scale⟩

namespace Matrix

/-- `Matrix.identity = new Matrix(1, 0, 0, 1, 0, 0)`. -/
def identity : Matrix := ⟨1, 0, 0, 1, 0, 0⟩

/-- `decompose()`: translation from `(e, f)`, rotation as the larger of
the two `atan2` candidates, scale by dividing `a` and `d` by the cosine of
that rotation. -/
noncomputable def decompose (self : Matrix) : MatrixComponent :=
  let rotation := max (atan2 self.b self.a) (atan2 (-self.c) self.d)
  let cos := Real.cos rotation
  ⟨⟨self.e, self.f⟩, rotation, ⟨self.a / cos, self.d / cos⟩⟩

/-- static `from(component)`: with raw elements (`"a" in component`) copy
them; otherwise default `translation = (0,0)`, `scale = (1,1)`,
`rotation = 0` (the source's `||` fallbacks) and build the matrix from
translation, rotation and scale (named `from'`: `from` is a Lean
keyword). -/
noncomputable def from' : MatrixFromArg → Matrix
  | .elements m => ⟨m.a, m.b, m.c, m.d, m.e, m.f⟩
  | .component comp =>
    let t := comp.translation.getD ⟨0, 0⟩
    let s := comp.scale.getD ⟨1, 1⟩
    let r := comp.rotation.getD 0
    ⟨s.x * Real.cos r, s.x * Real.sin r, -s.y * Real.sin r, s.y * Real.cos r,
     t.x, t.y⟩

/-- static `product(a, b)`. -/
def product (a b : MatrixLike) : Matrix :=
  ⟨a.a * b.a + a.c * b.b,
   a.b * b.a + a.d * b.b,
   a.a * b.c + a.c * b.d,
   a.b * b.c + a.d * b.d,
   a.a * b.e + a.c * b.f + a.e,
   a.b * b.e + a.d * b.f + a.f⟩

/-- static `productVector(m, v)`. -/
def productVector (m : MatrixLike) (v : VectorLike) : Vector :=
  ⟨m.a * v.x + m.c * v.y + m.e, m.b * v.x + m.d * v.y + m.f⟩

/-- static `inverse(m)`: closed-form affine inverse with
`denom = a * d - b * c`. -/
noncomputable def inverse (m : MatrixLike) : Matrix :=
  let denom := m.a * m.d - m.b * m.c
  ⟨m.d / denom, m.b / -denom, m.c / -denom, m.a / denom,
   (m.d * m.e - m.c * m.f) / -denom, (m.b * m.e - m.a * m.f) / denom⟩

/-- `globalize(localMatrix) = product(this, localMatrix)`. -/
def globalize (self : Matrix) (localMatrix : MatrixLike) : Matrix :=
  product self localMatrix

/-- `localize(globalMatrix) = product(inverse(this), globalMatrix)`. -/
noncomputable def localize (self : Matrix) (globalMatrix : MatrixLike) : Matrix :=
  product (inverse self) globalMatrix

/-- `translated(delta)`: adds `delta` to `(e, f)`, linear part unchanged. -/
def translated (self : Matrix) (delta : VectorLike) : Matrix :=
  ⟨self.a, self.b, self.c, self.d, self.e + delta.x, self.f + delta.y⟩

/-- `isClosedTo(other, delta = 10 ** -10)`: throws (`Error("delta is
negative")`) iff `delta < 0`; otherwise all six componentwise absolute
differences are at most `delta`. -/
def isClosedTo (self : Matrix) (other : MatrixLike)
    (delta : ℝ := (10 : ℝ) ^ (-10 : ℤ)) : Guarded Prop :=
  ⟨delta < 0,
   |self.a - other.a| ≤ delta ∧ |self.b - other.b| ≤ delta ∧
   |self.c - other.c| ≤ delta ∧ |self.d - other.d| ≤ delta ∧
   |self.e - other.e| ≤ delta ∧ |self.f - other.f| ≤ delta⟩

end Matrix

/-! Theorems.  Each claim has one theorem; shared helper lemmas come
first. -/

/-- Closeness with a nonnegative tolerance is reflexive: every
componentwise absolute difference of a matrix with itself is zero. -/
theorem Matrix.isClosedTo_refl (m : Matrix) (δ : ℝ) (h : 0 ≤ δ) :
    (Matrix.isClosedTo m m δ).value := by
  simp [Matrix.isClosedTo, h]

/-- C1: for every Vector `v` and vector-like `w`, `v.distance(w)` is the
Euclidean distance to `w`, equal to `(v.sub(w)).norm()` and to
`sqrt((v.x-w.x)^2 + (v.y-w.y)^2)`; in particular `v.distance(v) = 0` and
distance is symmetric: `v.distance(w) = Vector.from(w).distance(v)`. -/
theorem distance_euclidean (v w : Vector) :
    v.distance w = (v.sub w).norm ∧
    v.distance w = Real.sqrt ((v.x - w.x) ^ 2 + (v.y - w.y) ^ 2) ∧
    v.distance v = 0 ∧
    v.distance w = (Vector.from' w).distance v := by
  refine ⟨rfl, ?_, ?_, ?_⟩
  · unfold Vector.distance Vector.norm Vector.sub
    congr 1
    ring
  · simp [Vector.distance, Vector.norm, Vector.sub]
  · unfold Vector.distance Vector.norm Vector.sub Vector.from'
    congr 1
    ring

/-- C4 (corrected): `translated(delta)` adds `delta` to `(e, f)` with the
linear part unchanged, and this equals PRE-multiplication by the pure
translation matrix (translation applied in the parent frame):
`m.translated(delta) = product(Matrix.from({translation: delta}), m)`. -/
theorem translated_premultiplies (m : Matrix) (delta : Vector) :
    m.translated delta = ⟨m.a, m.b, m.c, m.d, m.e + delta.x, m.f + delta.y⟩ ∧
    m.translated delta =
      Matrix.product (Matrix.from' (.component ⟨some delta, none, none⟩)) m := by
  refine ⟨rfl, ?_⟩
  have hT : Matrix.from' (.component ⟨some delta, none, none⟩) =
      ⟨1, 0, 0, 1, delta.x, delta.y⟩ := by
    unfold Matrix.from'
    ext <;> simp
  rw [hT]
  unfold Matrix.translated Matrix.product
  ext <;> (dsimp; ring)

/-- C4's claim as stated is false: translation is not applied in the
matrix's own frame, so `m.translated(delta)` differs from
`product(m, Matrix.from({translation: delta}))` already at
`m = Matrix(1,2,3,4,5,6)`, `delta = (1,0)` (the `f` components are 6 and
8). -/
theorem translated_not_postmultiplication :
    Matrix.translated ⟨1, 2, 3, 4, 5, 6⟩ ⟨1, 0⟩ ≠
      Matrix.product ⟨1, 2, 3, 4, 5, 6⟩
        (Matrix.from' (.component ⟨some ⟨1, 0⟩, none, none⟩)) := by
  intro h
  have hf := congrArg Matrix.f h
  simp [Matrix.translated, Matrix.product, Matrix.from'] at hf

/-- C5 (the code evaluated at the failing input): the source's
`Vector.from` runs `new Vector(v.x, v.y)`, copying present fields as they
are, so a missing `y` stays missing (`undefined`) instead of defaulting to
0 as the claim and the repository's own test expect. -/
theorem fromJS_keeps_missing_fields :
    Vector.fromJS ⟨some 1, some 2⟩ = ⟨some 1, some 2⟩ ∧
    (Vector.fromJS ⟨some 1, none⟩).y = none ∧
    (Vector.fromJS ⟨some 1, none⟩).y ≠ some 0 := by
  refine ⟨rfl, rfl, ?_⟩
  simp [Vector.fromJS]

/-- C6: `Matrix.from` copies `a`...`f` when the input carries raw
elements; otherwise it treats the input as `{translation?, rotation?,
scale?}` with defaults `(0,0)`, `0`, `(1,1)` and builds
`(sx·cosθ, sx·sinθ, −sy·sinθ, sy·cosθ, tx, ty)`; concretely, from
translation (1,1), rotation π/2, scale (1,3) every component is within
1e-10 of `(0, 1, -3, 0, 1, 1)`. -/
theorem from_dispatch :
    (∀ m : MatrixLike,
      Matrix.from' (.elements m) = ⟨m.a, m.b, m.c, m.d, m.e, m.f⟩) ∧
    (∀ (t s : Vector) (r : ℝ),
      Matrix.from' (.component ⟨some t, some r, some s⟩) =
        ⟨s.x * Real.cos r, s.x * Real.sin r, -s.y * Real.sin r,
         s.y * Real.cos r, t.x, t.y⟩) ∧
    Matrix.from' (.component ⟨none, none, none⟩) = ⟨1, 0, 0, 1, 0, 0⟩ ∧
    (Matrix.isClosedTo
      (Matrix.from' (.component ⟨some ⟨1, 1⟩, some (π / 2), some ⟨1, 3⟩⟩))
      ⟨0, 1, -3, 0, 1, 1⟩ ((10 : ℝ) ^ (-10 : ℤ))).value := by
  refine ⟨fun m => rfl, fun t s r => rfl, ?_, ?_⟩
  · unfold Matrix.from'
    ext <;> simp
  · have hM : Matrix.from' (.component ⟨some ⟨1, 1⟩, some (π / 2), some ⟨1, 3⟩⟩) =
        ⟨0, 1, -3, 0, 1, 1⟩ := by
      unfold Matrix.from'
      ext <;> simp
    rw [hM]
    exact Matrix.isClosedTo_refl _ _ (by positivity)

/-- C7: `product` composes affine application in the order m1 after m2,
and `product(Matrix(1,2,3,4,5,6), Matrix(7,8,9,10,11,12))` equals
`(31, 46, 39, 58, 52, 76)` exactly. -/
theorem product_compose :
    (∀ (m1 m2 : Matrix) (v : Vector),
      Matrix.productVector (Matrix.product m1 m2) v =
        Matrix.productVector m1 (Matrix.productVector m2 v)) ∧
    Matrix.product ⟨1, 2, 3, 4, 5, 6⟩ ⟨7, 8, 9, 10, 11, 12⟩ =
      ⟨31, 46, 39, 58, 52, 76⟩ := by
  constructor
  · intro m1 m2 v
    unfold Matrix.productVector Matrix.product
    ext <;> (dsimp; ring)
  · unfold Matrix.product
    ext <;> norm_num

/-- Scaling both arguments of `atan2` by the same nonzero factor (the two
decomposition candidates `atan2(b, a)` and `atan2(-c, d)` of a matrix built
from rotation `θ` and scales `sx`, `sy` are of this shape) keeps the
tangent of `θ` and a nonzero cosine whenever `cos θ ≠ 0`. -/
theorem tan_atan2_scaled (s θ : ℝ) (hs : s ≠ 0) (hθ : Real.cos θ ≠ 0) :
    Real.tan (atan2 (s * Real.sin θ) (s * Real.cos θ)) = Real.tan θ ∧
    Real.cos (atan2 (s * Real.sin θ) (s * Real.cos θ)) ≠ 0 := by
  have hx : s * Real.cos θ ≠ 0 := mul_ne_zero hs hθ
  have hdiv : s * Real.sin θ / (s * Real.cos θ) = Real.tan θ := by
    rw [mul_div_mul_left _ _ hs, ← Real.tan_eq_sin_div_cos]
  rcases hx.lt_or_lt with hneg | hpos
  · by_cases hy : 0 ≤ s * Real.sin θ
    · have ha2 : atan2 (s * Real.sin θ) (s * Real.cos θ) =
          Real.arctan (s * Real.sin θ / (s * Real.cos θ)) + π := by
        unfold atan2
        rw [if_neg (by linarith), if_pos hneg, if_pos hy]
      rw [ha2]
      constructor
      · rw [Real.tan_periodic _, Real.tan_arctan, hdiv]
      · rw [Real.cos_add_pi]
        exact neg_ne_zero.mpr (ne_of_gt (Real.cos_arctan_pos _))
    · have ha2 : atan2 (s * Real.sin θ) (s * Real.cos θ) =
          Real.arctan (s * Real.sin θ / (s * Real.cos θ)) - π := by
        unfold atan2
        rw [if_neg (by linarith), if_pos hneg, if_neg hy]
      rw [ha2]
      constructor
      · rw [Real.tan_periodic.sub_eq, Real.tan_arctan, hdiv]
      · rw [Real.cos_sub_pi]
        exact neg_ne_zero.mpr (ne_of_gt (Real.cos_arctan_pos _))
  · have ha2 : atan2 (s * Real.sin θ) (s * Real.cos θ) =
        Real.arctan (s * Real.sin θ / (s * Real.cos θ)) := by
      unfold atan2
      rw [if_pos hpos]
    rw [ha2]
    exact ⟨by rw [Real.tan_arctan, hdiv], ne_of_gt (Real.cos_arctan_pos _)⟩

/-- C2 (corrected): for every matrix built purely from translation,
rotation `θ` and scale `(sx, sy)` with `cos θ ≠ 0` and both scale
components nonzero, the round trip `Matrix.from(m.decompose())`
reconstructs `m` exactly in real arithmetic — in particular componentwise
within 1e-10. -/
theorem decompose_roundtrip (tx ty θ sx sy : ℝ) (hsx : sx ≠ 0)
    (hsy : sy ≠ 0) (hθ : Real.cos θ ≠ 0) :
    Matrix.from'
        ((Matrix.from'
          (.component ⟨some ⟨tx, ty⟩, some θ, some ⟨sx, sy⟩⟩)).decompose.asArg) =
      Matrix.from' (.component ⟨some ⟨tx, ty⟩, some θ, some ⟨sx, sy⟩⟩) ∧
    (Matrix.isClosedTo
      (Matrix.from'
        ((Matrix.from'
          (.component ⟨some ⟨tx, ty⟩, some θ, some ⟨sx, sy⟩⟩)).decompose.asArg))
      (Matrix.from' (.component ⟨some ⟨tx, ty⟩, some θ, some ⟨sx, sy⟩⟩))
      ((10 : ℝ) ^ (-10 : ℤ))).value := by
  have hm : Matrix.from' (.component ⟨some ⟨tx, ty⟩, some θ, some ⟨sx, sy⟩⟩) =
      ⟨sx * Real.cos θ, sx * Real.sin θ, -sy * Real.sin θ, sy * Real.cos θ,
       tx, ty⟩ := rfl
  have h1 := tan_atan2_scaled sx θ hsx hθ
  have h2 := tan_atan2_scaled sy θ hsy hθ
  set r := max (atan2 (sx * Real.sin θ) (sx * Real.cos θ))
      (atan2 (sy * Real.sin θ) (sy * Real.cos θ)) with hrdef
  have hr : Real.tan r = Real.tan θ ∧ Real.cos r ≠ 0 := by
    rcases max_choice (atan2 (sx * Real.sin θ) (sx * Real.cos θ))
        (atan2 (sy * Real.sin θ) (sy * Real.cos θ)) with hmax | hmax
    · rw [hrdef, hmax]
      exact h1
    · rw [hrdef, hmax]
      exact h2
  have hneg2 : -(-sy * Real.sin θ) = sy * Real.sin θ := by ring
  have hdec : (⟨sx * Real.cos θ, sx * Real.sin θ, -sy * Real.sin θ,
      sy * Real.cos θ, tx, ty⟩ : Matrix).decompose =
      ⟨⟨tx, ty⟩, r,
       ⟨sx * Real.cos θ / Real.cos r, sy * Real.cos θ / Real.cos r⟩⟩ := by
    unfold Matrix.decompose
    dsimp only
    rw [hneg2, ← hrdef]
  have key : ∀ u : ℝ,
      u * Real.cos θ / Real.cos r * Real.sin r = u * Real.sin θ := by
    intro u
    have hsin : Real.sin r = Real.tan r * Real.cos r := by
      rw [Real.tan_eq_sin_div_cos, div_mul_cancel₀ _ hr.2]
    rw [hsin, hr.1, Real.tan_eq_sin_div_cos]
    field_simp [hθ, hr.2]
    ring
  have hback : Matrix.from'
      ((⟨sx * Real.cos θ, sx * Real.sin θ, -sy * Real.sin θ,
        sy * Real.cos θ, tx, ty⟩ : Matrix).decompose.asArg) =
      ⟨sx * Real.cos θ, sx * Real.sin θ, -sy * Real.sin θ, sy * Real.cos θ,
       tx, ty⟩ := by
    rw [hdec]
    unfold MatrixComponent.asArg Matrix.from'
    simp only [Option.getD_some]
    ext
    · exact div_mul_cancel₀ _ hr.2
    · exact key sx
    · dsimp only
      rw [neg_mul, neg_mul, key sy]
    · exact div_mul_cancel₀ _ hr.2
    · rfl
    · rfl
  rw [hm]
  refine ⟨hback, ?_⟩
  rw [hback]
  exact Matrix.isClosedTo_refl _ _ (by positivity)

/-- C2 witness: the theorem applied at translation (0,0), rotation 0 and
scale (1,1). -/
theorem decompose_roundtrip_witness :
    (Matrix.isClosedTo
      (Matrix.from'
        ((Matrix.from'
          (.component ⟨some ⟨0, 0⟩, some 0, some ⟨1, 1⟩⟩)).decompose.asArg))
      (Matrix.from' (.component ⟨some ⟨0, 0⟩, some 0, some ⟨1, 1⟩⟩))
      ((10 : ℝ) ^ (-10 : ℤ))).value :=
  (decompose_roundtrip 0 0 0 1 1 one_ne_zero one_ne_zero (by simp)).2

/-- C2's claim as stated is false: for the matrix built purely from
rotation π/2 (translation and scale defaulted), `cos` of the decomposed
rotation is zero, the decomposed scale degenerates to (0, 0), and the
round trip yields the zero matrix, whose `b` component differs from the
original's `b = 1` by 1 > 1e-10. -/
theorem decompose_roundtrip_counterexample :
    ¬(Matrix.isClosedTo
      (Matrix.from'
        ((Matrix.from'
          (.component ⟨none, some (π / 2), none⟩)).decompose.asArg))
      (Matrix.from' (.component ⟨none, some (π / 2), none⟩))
      ((10 : ℝ) ^ (-10 : ℤ))).value := by
  have hm : Matrix.from' (.component ⟨none, some (π / 2), none⟩) =
      ⟨0, 1, -1, 0, 0, 0⟩ := by
    unfold Matrix.from'
    ext <;> simp
  have hb : atan2 1 0 = π / 2 := by
    unfold atan2
    norm_num
  have hdec : (⟨0, 1, -1, 0, 0, 0⟩ : Matrix).decompose =
      ⟨⟨0, 0⟩, π / 2, ⟨0, 0⟩⟩ := by
    unfold Matrix.decompose
    dsimp only
    norm_num [hb]
  have hback : Matrix.from' ((⟨0, 1, -1, 0, 0, 0⟩ : Matrix).decompose.asArg) =
      ⟨0, 0, 0, 0, 0, 0⟩ := by
    rw [hdec]
    unfold MatrixComponent.asArg Matrix.from'
    ext <;> simp
  rw [hm, hback]
  intro hval
  simp only [Matrix.isClosedTo] at hval
  have hb1 := hval.2.1
  norm_num at hb1

/-- C3: for every matrix with nonzero determinant `a·d − b·c`, both
`product(inverse(m), m)` and `product(m, inverse(m))` are within 1e-10 of
the identity componentwise, and `inverse(Matrix(1,2,3,4,5,6))` equals
`(-2, 1, 1.5, -0.5, 1, -2)` exactly. -/
theorem inverse_product_identity (m : Matrix) (h : m.a * m.d - m.b * m.c ≠ 0) :
    (Matrix.isClosedTo (Matrix.product (Matrix.inverse m) m) Matrix.identity
      ((10 : ℝ) ^ (-10 : ℤ))).value ∧
    (Matrix.isClosedTo (Matrix.product m (Matrix.inverse m)) Matrix.identity
      ((10 : ℝ) ^ (-10 : ℤ))).value ∧
    Matrix.inverse ⟨1, 2, 3, 4, 5, 6⟩ = ⟨-2, 1, 1.5, -0.5, 1, -2⟩ := by
  have hole : m.b * m.c - m.a * m.d ≠ 0 := fun hc => h (by linarith)
  have h1 : Matrix.product (Matrix.inverse m) m = Matrix.identity := by
    unfold Matrix.product Matrix.inverse Matrix.identity
    ext <;> (dsimp; field_simp [h, hole]; ring)
  have h2 : Matrix.product m (Matrix.inverse m) = Matrix.identity := by
    unfold Matrix.product Matrix.inverse Matrix.identity
    ext <;> (dsimp; field_simp [h, hole]; ring)
  refine ⟨?_, ?_, ?_⟩
  · rw [h1]
    exact Matrix.isClosedTo_refl _ _ (by positivity)
  · rw [h2]
    exact Matrix.isClosedTo_refl _ _ (by positivity)
  · unfold Matrix.inverse
    ext <;> norm_num

/-- C3 witness: the theorem applied to the non-singular
`Matrix(1,2,3,4,5,6)` (determinant −2). -/
theorem inverse_product_identity_witness :
    (Matrix.isClosedTo
      (Matrix.product (Matrix.inverse ⟨1, 2, 3, 4, 5, 6⟩) ⟨1, 2, 3, 4, 5, 6⟩)
      Matrix.identity ((10 : ℝ) ^ (-10 : ℤ))).value :=
  (inverse_product_identity ⟨1, 2, 3, 4, 5, 6⟩ (by norm_num)).1

/-- C8: for every base matrix with nonzero determinant and every
matrix-like `x`, `base.localize(base.globalize(x))` is within 1e-10 of `x`
componentwise, where `globalize(x) = product(base, x)` and
`localize(y) = product(inverse(base), y)`. -/
theorem localize_globalize_inverse (base x : Matrix)
    (h : base.a * base.d - base.b * base.c ≠ 0) :
    (Matrix.isClosedTo (base.localize (base.globalize x)) x
      ((10 : ℝ) ^ (-10 : ℤ))).value ∧
    base.globalize x = Matrix.product base x ∧
    base.localize x = Matrix.product (Matrix.inverse base) x := by
  have hole : base.b * base.c - base.a * base.d ≠ 0 := fun hc => h (by linarith)
  have key : base.localize (base.globalize x) = x := by
    unfold Matrix.localize Matrix.globalize Matrix.product Matrix.inverse
    ext <;> (dsimp; field_simp [h, hole]; ring)
  refine ⟨?_, rfl, rfl⟩
  rw [key]
  exact Matrix.isClosedTo_refl x _ (by positivity)

/-- C8 witness: the theorem applied to the non-singular base
`Matrix(1,2,3,4,5,6)` and `x = Matrix(7,8,9,10,11,12)`. -/
theorem localize_globalize_inverse_witness :
    (Matrix.isClosedTo
      ((⟨1, 2, 3, 4, 5, 6⟩ : Matrix).localize
        ((⟨1, 2, 3, 4, 5, 6⟩ : Matrix).globalize ⟨7, 8, 9, 10, 11, 12⟩))
      ⟨7, 8, 9, 10, 11, 12⟩ ((10 : ℝ) ^ (-10 : ℤ))).value :=
  (localize_globalize_inverse ⟨1, 2, 3, 4, 5, 6⟩ ⟨7, 8, 9, 10, 11, 12⟩
    (by norm_num)).1

/-- C9: on both Vector and Matrix, `isClosedTo(other, delta)` (default
`delta = 10 ** -10`) throws iff `delta < 0`; for every `delta ≥ 0` it
throws nothing and returns true iff every componentwise absolute
difference is at most `delta`. -/
theorem isClosedTo_guard (v w : Vector) (m n : Matrix) (δ : ℝ) :
    ((v.isClosedTo w δ).throws ↔ δ < 0) ∧
    ((m.isClosedTo n δ).throws ↔ δ < 0) ∧
    v.isClosedTo w = v.isClosedTo w ((10 : ℝ) ^ (-10 : ℤ)) ∧
    m.isClosedTo n = m.isClosedTo n ((10 : ℝ) ^ (-10 : ℤ)) ∧
    (0 ≤ δ →
      ¬(v.isClosedTo w δ).throws ∧ ¬(m.isClosedTo n δ).throws ∧
      ((v.isClosedTo w δ).value ↔ |v.x - w.x| ≤ δ ∧ |v.y - w.y| ≤ δ) ∧
      ((m.isClosedTo n δ).value ↔
        |m.a - n.a| ≤ δ ∧ |m.b - n.b| ≤ δ ∧ |m.c - n.c| ≤ δ ∧
        |m.d - n.d| ≤ δ ∧ |m.e - n.e| ≤ δ ∧ |m.f - n.f| ≤ δ)) :=
  ⟨Iff.rfl, Iff.rfl, rfl, rfl,
    fun h => ⟨not_lt.mpr h, not_lt.mpr h, Iff.rfl, Iff.rfl⟩⟩

/-- C9 witness: the theorem applied at `delta = 0.1 ≥ 0` and vectors
`(1, 2)` and `(1, 2.05)`. -/
theorem isClosedTo_guard_witness :
    ¬(Vector.isClosedTo ⟨1, 2⟩ ⟨1, 2.05⟩ 0.1).throws ∧
    ((Vector.isClosedTo ⟨1, 2⟩ ⟨1, 2.05⟩ 0.1).value ↔
      |(1 : ℝ) - 1| ≤ 0.1 ∧ |(2 : ℝ) - 2.05| ≤ 0.1) := by
  have h :=
    (isClosedTo_guard ⟨1, 2⟩ ⟨1, 2.05⟩ Matrix.identity Matrix.identity
      0.1).2.2.2.2 (by norm_num)
  exact ⟨h.1, h.2.2.1⟩

/-- C10: `Matrix.product` is associative over exact real arithmetic, so
chains of globalize/localize compositions are independent of grouping. -/
theorem product_assoc (m1 m2 m3 : Matrix) :
    Matrix.product m1 (Matrix.product m2 m3) =
      Matrix.product (Matrix.product m1 m2) m3 := by
  unfold Matrix.product
  ext <;> (dsimp; ring)

end TransVector2d
